import Mathlib

namespace McpMd

/-- The left curly brace character. -/
def lbrace : Char := Char.ofNat 123

/-- The right curly brace character. -/
def rbrace : Char := Char.ofNat 125

/-- JSON values as produced by the JSON parsing used in
`ChatSession._extract_tool_calls` (a model of the values that
`json.loads` can return).  Numbers keep their raw source token, since
the chatbot never computes with them. -/
inductive JsonV where
  | null : JsonV
  | bool (b : Bool) : JsonV
  | num (raw : String) : JsonV
  | str (s : String) : JsonV
  | arr (items : List JsonV) : JsonV
  | obj (members : List (String × JsonV)) : JsonV

mutual

/-- Model of `json.dumps(..., ensure_ascii=False)` used when the chat
session renders tool arguments into the conversation history. -/
def jsonDumps : JsonV → String
  | .null => "null"
  | .bool true => "true"
  | .bool false => "false"
  | .num raw => raw
  | .str s => "\"" ++ s ++ "\""
  | .arr items => "[" ++ dumpsItems items ++ "]"
  | .obj members => "\x7b" ++ dumpsMembers members ++ "\x7d"

/-- Comma-separated rendering of a JSON array body. -/
def dumpsItems : List JsonV → String
  | [] => ""
  | [v] => jsonDumps v
  | v :: vs => jsonDumps v ++ ", " ++ dumpsItems vs

/-- Comma-separated rendering of a JSON object body. -/
def dumpsMembers : List (String × JsonV) → String
  | [] => ""
  | [(k, v)] => "\"" ++ k ++ "\": " ++ jsonDumps v
  | (k, v) :: kvs => "\"" ++ k ++ "\": " ++ jsonDumps v ++ ", " ++ dumpsMembers kvs

end


/-! ## A model of `json.loads`

`ChatSession._extract_tool_calls` relies on the Python function `json.loads`.  The
recursive-descent parser below models it: JSON whitespace, `null`,
booleans, numbers, strings with escapes, arrays and objects.  Fuel makes
the recursion structural; `jsonLoads` supplies more than enough fuel. -/

/-- JSON whitespace characters accepted between tokens. -/
def isJsonWs (c : Char) : Bool :=
  c = ' ' || c = '\t' || c = '\n' || c = '\r'

/-- Skip JSON whitespace. -/
def skipWs : List Char → List Char
  | [] => []
  | c :: cs => if isJsonWs c then skipWs cs else c :: cs

/-- Decode one hexadecimal digit. -/
def hexVal (c : Char) : Option Nat :=
  if '0' ≤ c ∧ c ≤ '9' then some (c.toNat - '0'.toNat)
  else if 'a' ≤ c ∧ c ≤ 'f' then some (c.toNat - 'a'.toNat + 10)
  else if 'A' ≤ c ∧ c ≤ 'F' then some (c.toNat - 'A'.toNat + 10)
  else none

/-- Decode a single-character JSON string escape. -/
def escVal (c : Char) : Option Char :=
  if c = '"' then some '"'
  else if c = '\\' then some '\\'
  else if c = '/' then some '/'
  else if c = 'b' then some (Char.ofNat 8)
  else if c = 'f' then some (Char.ofNat 12)
  else if c = 'n' then some '\n'
  else if c = 'r' then some '\r'
  else if c = 't' then some '\t'
  else none

/-- Parse the body of a JSON string after the opening quote; returns the
decoded characters and the input after the closing quote. -/
def parseStringBody : List Char → Option (List Char × List Char)
  | [] => none
  | c :: cs =>
    if c = '"' then some ([], cs)
    else if c = '\\' then
      match cs with
      | [] => none
      | e :: cs2 =>
        if e = 'u' then
          match cs2 with
          | a :: b :: c2 :: d :: cs3 =>
            match hexVal a, hexVal b, hexVal c2, hexVal d with
            | some x, some y, some z, some w =>
              match parseStringBody cs3 with
              | some (s, r) =>
                some (Char.ofNat (((x * 16 + y) * 16 + z) * 16 + w) :: s, r)
              | none => none
            | _, _, _, _ => none
          | _ => none
        else
          match escVal e with
          | some ch =>
            match parseStringBody cs2 with
            | some (s, r) => some (ch :: s, r)
            | none => none
          | none => none
    else
      match parseStringBody cs with
      | some (s, r) => some (c :: s, r)
      | none => none

/-- Take a maximal run of decimal digits. -/
def spanDigits : List Char → List Char × List Char
  | [] => ([], [])
  | c :: cs =>
    if c.isDigit then
      let p := spanDigits cs
      (c :: p.1, p.2)
    else ([], c :: cs)

/-- Parse the optional fraction-and-exponent tail of a JSON number. -/
def parseNumTail (cs : List Char) : Option (List Char × List Char) :=
  let frac :=
    match cs with
    | '.' :: cs2 =>
      match spanDigits cs2 with
      | ([], _) => none
      | (ds, r) => some ('.' :: ds, r)
    | _ => some ([], cs)
  match frac with
  | none => none
  | some (f, cs2) =>
    match cs2 with
    | e :: cs3 =>
      if e = 'e' ∨ e = 'E' then
        match cs3 with
        | s :: cs4 =>
          if s = '+' ∨ s = '-' then
            match spanDigits cs4 with
            | ([], _) => none
            | (ds, r) => some (f ++ e :: s :: ds, r)
          else
            match spanDigits cs3 with
            | ([], _) => none
            | (ds, r) => some (f ++ e :: ds, r)
        | [] => none
      else some (f, cs2)
    | [] => some (f, cs2)

/-- Parse a JSON number token (strict integer part, then optional
fraction/exponent), returning its raw text. -/
def parseNumber (cs : List Char) : Option (JsonV × List Char) :=
  let core : List Char → Option (List Char × List Char) := fun cs0 =>
    match cs0 with
    | '0' :: rest =>
      match parseNumTail rest with
      | some (t, r) => some ('0' :: t, r)
      | none => none
    | c :: rest =>
      if c.isDigit then
        let p := spanDigits rest
        match parseNumTail p.2 with
        | some (t, r) => some (c :: p.1 ++ t, r)
        | none => none
      else none
    | [] => none
  match cs with
  | '-' :: rest =>
    match core rest with
    | some (t, r) => some (.num (String.mk ('-' :: t)), r)
    | none => none
  | _ =>
    match core cs with
    | some (t, r) => some (.num (String.mk t), r)
    | none => none

mutual

/-- Fueled recursive-descent parser for one JSON value.  The input is
assumed to start at a non-whitespace character. -/
def parseValue : Nat → List Char → Option (JsonV × List Char)
  | 0, _ => none
  | fuel + 1, cs =>
    match cs with
    | [] => none
    | c :: rest =>
      if c = '"' then
        match parseStringBody rest with
        | some (s, r) => some (.str (String.mk s), r)
        | none => none
      else if c = lbrace then
        match skipWs rest with
        | [] => none
        | d :: r2 =>
          if d = rbrace then some (.obj [], r2)
          else
            match parseMembers fuel (d :: r2) with
            | some (kvs, r3) => some (.obj kvs, r3)
            | none => none
      else if c = '[' then
        match skipWs rest with
        | [] => none
        | d :: r2 =>
          if d = ']' then some (.arr [], r2)
          else
            match parseItems fuel (d :: r2) with
            | some (vs, r3) => some (.arr vs, r3)
            | none => none
      else if c = 't' then
        match rest with
        | 'r' :: 'u' :: 'e' :: r => some (.bool true, r)
        | _ => none
      else if c = 'f' then
        match rest with
        | 'a' :: 'l' :: 's' :: 'e' :: r => some (.bool false, r)
        | _ => none
      else if c = 'n' then
        match rest with
        | 'u' :: 'l' :: 'l' :: r => some (.null, r)
        | _ => none
      else parseNumber cs

/-- Parse the members of a JSON object (the input starts at the first
key); consumes the closing brace. -/
def parseMembers : Nat → List Char → Option (List (String × JsonV) × List Char)
  | 0, _ => none
  | fuel + 1, cs =>
    match cs with
    | [] => none
    | c :: rest =>
      if c = '"' then
        match parseStringBody rest with
        | some (k, r1) =>
          match skipWs r1 with
          | ':' :: r2 =>
            match parseValue fuel (skipWs r2) with
            | some (v, r3) =>
              match skipWs r3 with
              | ',' :: r4 =>
                match parseMembers fuel (skipWs r4) with
                | some (kvs, r5) => some ((String.mk k, v) :: kvs, r5)
                | none => none
              | d :: r4 =>
                if d = rbrace then some ([(String.mk k, v)], r4) else none
              | [] => none
            | none => none
          | _ => none
        | none => none
      else none

/-- Parse the items of a JSON array (the input starts at the first
item); consumes the closing bracket. -/
def parseItems : Nat → List Char → Option (List JsonV × List Char)
  | 0, _ => none
  | fuel + 1, cs =>
    match parseValue fuel cs with
    | some (v, r1) =>
      match skipWs r1 with
      | ',' :: r2 =>
        match parseItems fuel (skipWs r2) with
        | some (vs, r3) => some (v :: vs, r3)
        | none => none
      | ']' :: r2 => some ([v], r2)
      | _ => none
    | none => none

end

/-- Model of Python `json.loads`: parse a complete JSON document,
allowing surrounding whitespace; `none` models a raised
`json.JSONDecodeError`. -/
def jsonLoads (s : String) : Option JsonV :=
  match parseValue (2 * s.data.length + 2) (skipWs s.data) with
  | some (v, r) => if skipWs r = [] then some v else none
  | none => none

/-! ## A model of the balanced-brace regex scan

`_extract_tool_calls` falls back to
`re.finditer(r"(\x7b[^\x7b\x7d]*(\x7b[^\x7b\x7d]*\x7d)*[^\x7b\x7d]*\x7d)", text)`.
The pattern matches an opening brace, a run of non-brace characters, a
run of directly adjacent one-level groups, another run of non-brace
characters and a closing brace.  Because every character class in the
pattern is brace-delimited, greedy matching with backtracking reduces to
the deterministic maximal-run matcher below, and `re.finditer` to a
left-to-right non-overlapping scan. -/

/-- Is the character one of the two braces? -/
def isBrace (c : Char) : Bool := c = lbrace || c = rbrace

/-- Take the maximal run of non-brace characters (the `[^...]*` parts of
the pattern). -/
def spanNB : List Char → List Char × List Char
  | [] => ([], [])
  | c :: cs =>
    if isBrace c then ([], c :: cs)
    else
      let p := spanNB cs
      (c :: p.1, p.2)

/-- Match the maximal run of complete one-level groups
`\x7b[^\x7b\x7d]*\x7d` appearing directly one after the other. -/
def groupRun : Nat → List Char → List Char × List Char
  | 0, cs => ([], cs)
  | fuel + 1, cs =>
    match cs with
    | [] => ([], [])
    | c :: rest =>
      if c = lbrace then
        let p := spanNB rest
        match p.2 with
        | d :: rest2 =>
          if d = rbrace then
            let q := groupRun fuel rest2
            (lbrace :: (p.1 ++ rbrace :: q.1), q.2)
          else ([], c :: rest)
        | [] => ([], c :: rest)
      else ([], c :: rest)

/-- Match the whole pattern at the head of the input; on success return
the matched text and the remaining input. -/
def matchObject (cs : List Char) : Option (List Char × List Char) :=
  match cs with
  | [] => none
  | c :: rest =>
    if c = lbrace then
      let a := spanNB rest
      let g := groupRun rest.length a.2
      let b := spanNB g.2
      match b.2 with
      | d :: rest2 =>
        if d = rbrace then
          some (lbrace :: (a.1 ++ g.1 ++ b.1 ++ [rbrace]), rest2)
        else none
      | [] => none
    else none

/-- Fueled left-to-right non-overlapping scan, as `re.finditer`
performs: try a match at each position, and continue after the match or
one character further on failure. -/
def finditerAux : Nat → List Char → List (List Char)
  | 0, _ => []
  | fuel + 1, cs =>
    match cs with
    | [] => []
    | c :: rest =>
      match matchObject (c :: rest) with
      | some p => p.1 :: finditerAux fuel p.2
      | none => finditerAux fuel rest

/-- All pattern matches in the text, in order of appearance. -/
def finditer (cs : List Char) : List (List Char) := finditerAux cs.length cs

/-- Does a parsed value qualify as a tool call: a JSON object with both
a `tool` key and an `arguments` key (`isinstance(x, dict)` plus the two
`in` checks in the source)? -/
def hasToolKeys : JsonV → Bool
  | .obj kvs => (kvs.any fun p => p.1 = "tool") && (kvs.any fun p => p.1 = "arguments")
  | _ => false

/-- Model of `ChatSession._extract_tool_calls`: first try to parse the
whole response as one qualifying JSON object; otherwise scan for
brace-balanced substrings and keep every one that parses into a
qualifying object, preserving text order. -/
def extractToolCalls (s : String) : List JsonV :=
  let whole :=
    match jsonLoads s with
    | some j => if hasToolKeys j then some j else none
    | none => none
  match whole with
  | some j => [j]
  | none =>
    (finditer s.data).filterMap fun m =>
      match jsonLoads (String.mk m) with
      | some j => if hasToolKeys j then some j else none
      | none => none


/-! ## `MCPClient.execute_tool`

The retry loop of `MCPClient.execute_tool` is modelled with the
underlying `session.call_tool` given as a function from the invocation
index to its outcome.  Besides the Python return value (`.ok none`
models falling off the end of the function, i.e. returning `None`;
`.ok (some v)` a returned result; `.error e` a propagated exception) the
model records how many times the underlying call ran and the list of
`asyncio.sleep` delays performed. -/

/-- The body of the `while attempt < retries` loop, with
`rem = retries - attempt` as the recursion measure.  Mirrors: invoke the
call; on success return its value; on an exception increment `attempt`,
sleep `delay` and retry if `attempt < retries` still holds, otherwise
re-raise. -/
def executeToolGo (call : Nat → Except String JsonV) (delay : ℚ) :
    Nat → Nat → List ℚ → Except String (Option JsonV) × Nat × List ℚ
  | 0, calls, slept => (.ok none, calls, slept)
  | rem + 1, calls, slept =>
    match call calls with
    | .ok v => (.ok (some v), calls + 1, slept)
    | .error e =>
      if rem = 0 then (.error e, calls + 1, slept)
      else executeToolGo call delay rem (calls + 1) (slept ++ [delay])

/-- Model of `MCPClient.execute_tool`: the not-initialized guard, then
the retry loop.  `retries` is an `Int` because the Python parameter may
be any integer; `delay` only matters as the argument of the sleeps. -/
def executeTool (hasSession : Bool) (call : Nat → Except String JsonV)
    (retries : Int) (delay : ℚ) : Except String (Option JsonV) × Nat × List ℚ :=
  if hasSession then executeToolGo call delay retries.toNat 0 []
  else (.error "未初始化", 0, [])


/-! ## The chat session -/

/-- One conversation entry (a Python `{"role": ..., "content": ...}`
dict). -/
structure Message where
  role : String
  content : String
deriving DecidableEq

/-- Model of the `ToolCall` dataclass of `chat/session.py`. -/
structure ToolCall where
  tool : JsonV
  arguments : JsonV
  result : Option JsonV := none
  error : Option String := none

/-- `ToolCall.is_successful`. -/
def ToolCall.isSuccessful (tc : ToolCall) : Bool :=
  tc.error.isNone && tc.result.isSome

/-- The external world one chat turn interacts with: the model
completion for the k-th `get_response` call of the turn, and the outcome
of the k-th underlying `session.call_tool` invocation for a given tool
name and arguments. -/
structure Env where
  llm : Nat → String
  attempts : String → JsonV → Nat → Except String JsonV

/-- A tool name → client name registry with Python `dict` semantics
(insertion order preserved, update in place). -/
abbrev Registry := List (String × String)

/-- Python `key in dict`. -/
def dictContains (m : Registry) (k : String) : Bool :=
  m.any fun p => p.1 = k

/-- Python `dict[key] = value`: update in place if present, else append. -/
def dictInsert (m : Registry) (k v : String) : Registry :=
  if dictContains m k then m.map fun p => if p.1 = k then (k, v) else p
  else m ++ [(k, v)]

/-- Python `dict.get(key)` / `dict[key]` lookup. -/
def dictLookup (m : Registry) (k : String) : Option String :=
  (m.find? fun p => p.1 = k).map fun p => p.2

/-- Read a key out of a parsed JSON object, the way indexing the `dict`
returned by `json.loads` behaves (duplicate keys: last one wins). -/
def objGet (j : JsonV) (k : String) : JsonV :=
  match j with
  | .obj kvs => ((kvs.filter fun p => p.1 = k).getLast?.map fun p => p.2).getD .null
  | _ => .null

/-- How an f-string renders the tool name slot (tool names are strings
in every reachable case; other values fall back to their JSON text). -/
def fmtToolName : JsonV → String
  | .str s => s
  | v => jsonDumps v

/-- Model of `ChatSession._execute_tool_call`: build the outcome record,
resolve the tool in the registry, run `execute_tool` with its default
`retries=2, delay=1.0` when found, and synthesize the appropriate error
otherwise. -/
def executeToolCall (env : Env) (reg : Registry) (j : JsonV) : ToolCall :=
  let toolName := objGet j "tool"
  let args := objGet j "arguments"
  match toolName with
  | .str s =>
    if dictContains reg s then
      match (executeTool true (env.attempts s args) 2 1).1 with
      | .ok v => { tool := toolName, arguments := args, result := v }
      | .error e =>
        { tool := toolName, arguments := args, error := some ("执行工具时出错: " ++ e) }
    else
      { tool := toolName, arguments := args, error := some ("未找到工具: " ++ s) }
  | other =>
    { tool := other, arguments := args,
      error := some ("未找到工具: " ++ fmtToolName other) }

/-- The per-call block of the tool-results summary built in
`send_message` (tool, `json.dumps`-ed arguments, result or error). -/
def renderToolCall (tc : ToolCall) : String :=
  "工具: " ++ fmtToolName tc.tool ++ "\n参数: " ++ jsonDumps tc.arguments ++
    "\n结果: " ++
      (if tc.isSuccessful then
        match tc.result with
        | some v => jsonDumps v
        | none => "None"
      else tc.error.getD "None")

/-- The synthetic system message folding one round of outcomes back into
the history. -/
def roundMessage (outcomes : List ToolCall) : Message :=
  ⟨"system", "工具执行结果:\n\n" ++ String.intercalate "\n\n" (outcomes.map renderToolCall)⟩

/-- What one turn of `send_message` produced: the returned text, the
final history, the number of tool rounds executed, the number of model
completions obtained, and whether the max-iterations warning fired. -/
structure TurnResult where
  text : String
  messages : List Message
  rounds : Nat
  llmCalls : Nat
  boundHit : Bool
deriving DecidableEq

/-- The `while tool_iteration < max_iterations` loop of
`ChatSession.send_message`, recursing on the remaining iteration count.
`k` counts model completions obtained so far, `r` the tool rounds
executed. -/
def sendLoop (env : Env) (reg : Registry) :
    Nat → List Message → String → Nat → Nat → TurnResult
  | 0, msgs, resp, k, r => ⟨resp, msgs, r, k, true⟩
  | n + 1, msgs, resp, k, r =>
    let tcds := extractToolCalls resp
    if tcds.isEmpty then ⟨resp, msgs, r, k, false⟩
    else
      let outcomes := tcds.map (executeToolCall env reg)
      let msgs2 := msgs ++ [roundMessage outcomes]
      let resp2 := env.llm k
      let msgs3 := msgs2 ++ [⟨"assistant", resp2⟩]
      if (extractToolCalls resp2).isEmpty then ⟨resp2, msgs3, r + 1, k + 1, false⟩
      else sendLoop env reg n msgs3 resp2 (k + 1) (r + 1)

/-! ## Initialization and the tool registry -/

/-- One discovered tool (name, description, input schema) as held by an
`MCPTool`. -/
structure ToolSpec where
  name : String
  description : String
  inputSchema : String
deriving DecidableEq

/-- One configured `MCPClient` together with the behaviour of its
external server during this startup: whether `initialize`/`list_tools`
succeed, and the tools the server reports. -/
structure ClientSpec where
  name : String
  initOk : Bool
  tools : List ToolSpec
deriving DecidableEq

/-- Modelled from the spec: `MCPTool.format_for_llm` lives in
`mcp/mcp_tool.py`, which is not part of the available sources.  Per the
spec it renders one line per tool combining the name, the human
description and a serialization of the input schema. -/
def formatForLLM (t : ToolSpec) : String :=
  t.name ++ ": " ++ t.description ++ " " ++ t.inputSchema

/-- The `SYSTEM_MESSAGE` template of `chat/session.py` after
`.format(tools_description=...)` substitutes the description block. -/
def systemMessage (toolsDescription : String) : String :=
  "You are a helpful assistant with access to these tools:\n\n" ++
    toolsDescription ++
    "\n\nChoose the appropriate tool based on the user\x27s question. " ++
    "If no tool is needed, reply directly.\n\n" ++
    "IMPORTANT: When you need to use a tool, you must respond with " ++
    "the exact JSON object format below:\n" ++
    "\x7b\n    \"tool\": \"tool-name\",\n    \"arguments\": \x7b\n" ++
    "        \"argument-name\": \"value\"\n    \x7d\n\x7d\n\n" ++
    "After receiving tool responses:\n" ++
    "1. Transform the raw data into a natural, conversational response\n" ++
    "2. Keep responses concise but informative\n" ++
    "3. Focus on the most relevant information\n" ++
    "4. Use appropriate context from the user\x27s question\n" ++
    "5. Answer my question in Chinese\n" ++
    "6. Avoid simply repeating the raw data\n\n" ++
    "Please use only the tools that are explicitly defined above."

/-- The state of a `ChatSession` relevant to the claims. -/
structure ChatState where
  clients : List ClientSpec
  messages : List Message
  isInitialized : Bool
  toolClientMap : Registry
deriving DecidableEq

/-- The inner `for tool in tools` loop of `ChatSession.initialize`:
register every tool of one client into the map, appending a warning for
each name already present (the assignment happens unconditionally after
the warning). -/
def registerClient : Registry → List String → List ToolSpec → String →
    Registry × List String
  | m, ws, [], _ => (m, ws)
  | m, ws, t :: ts, cname =>
    let ws' := if dictContains m t.name then ws ++ [t.name] else ws
    registerClient (dictInsert m t.name cname) ws' ts cname

/-- The outer `for client in self.clients` loop of
`ChatSession.initialize`: initialize each client and register its tools;
a client failure stops the loop.  Returns whether every client
initialized, the map built so far and the collision warnings logged. -/
def buildRegistry : List ClientSpec → Registry → List String →
    Bool × Registry × List String
  | [], m, ws => (true, m, ws)
  | c :: cs, m, ws =>
    if c.initOk then
      let p := registerClient m ws c.tools c.name
      buildRegistry cs p.1 p.2
    else (false, m, ws)

/-- What `ChatSession.initialize` produced: the returned boolean, the
session state afterwards, the clients passed to `cleanup_clients`
(`cleanup_clients` iterates over all of them), and the duplicate-name
warnings logged. -/
structure InitOutcome where
  ok : Bool
  state : ChatState
  cleaned : List String
  collisions : List String
deriving DecidableEq

/-- Model of `ChatSession.initialize`: early-return when already
initialized; build the registry client by client (on any client failure
clean up every client and report failure); then collect all tools,
render the system message and seed the history with it. -/
def initializeModel (st : ChatState) : InitOutcome :=
  if st.isInitialized then ⟨true, st, [], []⟩
  else
    let r := buildRegistry st.clients [] []
    if r.1 then
      let allTools := (st.clients.map fun c => c.tools).flatten
      let desc := String.intercalate "\n" (allTools.map formatForLLM)
      ⟨true,
        { st with
            messages := [⟨"system", systemMessage desc⟩]
            isInitialized := true
            toolClientMap := r.2.1 },
        [], r.2.2⟩
    else
      ⟨false, { st with toolClientMap := r.2.1 }, st.clients.map (fun c => c.name), r.2.2⟩

/-- Model of `ChatSession.send_message`: initialize on demand (failing
the turn if that fails), append the user message, obtain the first
completion, then run the tool-call iteration loop. -/
def sendMessageReady (env : Env) (st : ChatState) (userMessage : String)
    (maxIterations : Nat) : TurnResult :=
  sendLoop env st.toolClientMap maxIterations
    (st.messages ++ [⟨"user", userMessage⟩, ⟨"assistant", env.llm 0⟩])
    (env.llm 0) 1 0

/-- `ChatSession.send_message` including the lazy-initialization
guard. -/
def sendMessage (env : Env) (st : ChatState) (userMessage : String)
    (maxIterations : Nat) : TurnResult :=
  if st.isInitialized then sendMessageReady env st userMessage maxIterations
  else
    let init := initializeModel st
    if init.ok then sendMessageReady env init.state userMessage maxIterations
    else ⟨"初始化聊天会话失败", st.messages, 0, 0, false⟩

/-- Model of `ChatSession.clear_history`: when initialized and the
history is non-empty, keep only the first message. -/
def clearHistory (st : ChatState) : ChatState :=
  if st.isInitialized && !st.messages.isEmpty then
    { st with messages := st.messages.take 1 }
  else st

/-- The client that effectively serves tool `t` after the registration
loop: the **last** configured client whose tool list contains `t` (the
assignment `self.tool_client_map[tool.name] = client` runs
unconditionally, so later clients overwrite earlier ones). -/
def lastRegistrant : List ClientSpec → String → Option String
  | [], _ => none
  | c :: cs, t =>
    match lastRegistrant cs t with
    | some n => some n
    | none =>
      if c.tools.any (fun tool => tool.name = t) then some c.name else none

/-- All characters of the list are non-brace characters. -/
def nbrace (cs : List Char) : Bool := cs.all fun c => !isBrace c

/-- The list is empty or starts with a brace (the boundary condition
under which a maximal non-brace run stops exactly here). -/
def headBrace : List Char → Bool
  | [] => true
  | d :: _ => isBrace d

/-- The list does not start with an opening brace. -/
def headNotLb : List Char → Bool
  | [] => true
  | d :: _ => d != lbrace

/-- Every element is a complete one-level group
`\x7b[^\x7b\x7d]*\x7d`. -/
def IsGroupList (gs : List (List Char)) : Prop :=
  ∀ g ∈ gs, ∃ inner, nbrace inner = true ∧ g = lbrace :: (inner ++ [rbrace])


/-! ## Claims about `execute_tool` (C2, C10) -/

/-- C2: with `retries=2`, an underlying call that raises on every
attempt is invoked exactly twice with one `delay`-long wait in between,
and the second failure is re-raised; an underlying call that succeeds on
the second attempt yields that success after exactly two invocations and
one wait, with no further attempt. -/
theorem execute_tool_retry_law :
    (∀ (call : Nat → Except String JsonV) (delay : ℚ) (e0 e1 : String),
      call 0 = .error e0 → call 1 = .error e1 →
      executeTool true call 2 delay = (.error e1, 2, [delay])) ∧
    (∀ (call : Nat → Except String JsonV) (delay : ℚ) (e0 : String) (a : JsonV),
      call 0 = .error e0 → call 1 = .ok a →
      executeTool true call 2 delay = (.ok (some a), 2, [delay])) := by
  constructor
  · intro call delay e0 e1 h0 h1
    simp [executeTool, executeToolGo, h0, h1]
  · intro call delay e0 a h0 h1
    simp [executeTool, executeToolGo, h0, h1]

/-- Witness for C2 at a concrete always-failing call and a concrete
fails-then-succeeds call. -/
theorem execute_tool_retry_law_witness :
    executeTool true (fun k => if k = 0 then .error "e0" else .error "e1") 2 1 =
      (.error "e1", 2, [1]) ∧
    executeTool true (fun k => if k = 0 then .error "e0" else .ok .null) 2 1 =
      (.ok (some .null), 2, [1]) :=
  ⟨execute_tool_retry_law.1 _ 1 "e0" "e1" rfl rfl,
   execute_tool_retry_law.2 _ 1 "e0" .null rfl rfl⟩

/-- C10: with `retries ≤ 0` the `while attempt < retries` loop body is
never entered, so `execute_tool` performs no underlying invocation, no
wait, raises nothing, and falls off the end of the function returning
`None`. -/
theorem execute_tool_nonpositive_retries (call : Nat → Except String JsonV)
    (retries : Int) (delay : ℚ) (h : retries ≤ 0) :
    executeTool true call retries delay = (.ok none, 0, []) := by
  have h0 : retries.toNat = 0 := Int.toNat_of_nonpos h
  simp [executeTool, h0, executeToolGo]

/-- Witness for C10 at `retries = 0` and an always-failing call. -/
theorem execute_tool_nonpositive_retries_witness :
    executeTool true (fun _ => .error "boom") 0 1 = (.ok none, 0, []) :=
  execute_tool_nonpositive_retries _ 0 1 (by decide)

/-! ## Claim about `clear_history` (C4) -/

/-- C4: on an initialized session with a non-empty history,
`clear_history` keeps exactly the element at index 0 and drops every
other element; on a session that was never initialized it is a no-op. -/
theorem clear_history_spec :
    (∀ (st : ChatState) (m : Message) (rest : List Message),
      st.isInitialized = true → st.messages = m :: rest →
      clearHistory st = { st with messages := [m] }) ∧
    (∀ st : ChatState, st.isInitialized = false → clearHistory st = st) := by
  constructor
  · intro st m rest hinit hmsgs
    simp [clearHistory, hinit, hmsgs]
  · intro st hinit
    simp [clearHistory, hinit]

/-- Witness for C4 at a concrete three-message history and a concrete
uninitialized state. -/
theorem clear_history_spec_witness :
    clearHistory ⟨[], [⟨"system", "s"⟩, ⟨"user", "u"⟩, ⟨"assistant", "a"⟩], true, []⟩ =
      ⟨[], [⟨"system", "s"⟩], true, []⟩ ∧
    clearHistory ⟨[], [⟨"user", "u"⟩], false, []⟩ = ⟨[], [⟨"user", "u"⟩], false, []⟩ :=
  ⟨clear_history_spec.1 _ ⟨"system", "s"⟩ [⟨"user", "u"⟩, ⟨"assistant", "a"⟩] rfl rfl,
   clear_history_spec.2 _ rfl⟩

/-! ## Claim about tool-call outcomes (C9) -/

/-- With two retries the loop either returns a value of the first
successful attempt or re-raises; it never falls off the end. -/
theorem executeTool_two_ne_ok_none (call : Nat → Except String JsonV) (delay : ℚ) :
    (executeTool true call 2 delay).1 ≠ .ok none := by
  cases h0 : call 0 with
  | ok v0 => simp [executeTool, executeToolGo, h0]
  | error e0 =>
    cases h1 : call 1 with
    | ok v1 => simp [executeTool, executeToolGo, h0, h1]
    | error e1 => simp [executeTool, executeToolGo, h0, h1]

/-- C9: every outcome `_execute_tool_call` completes — tool succeeded,
tool raised after retries, or tool not found — has exactly one of
`result`/`error` populated; the freshly constructed, not-yet-executed
`ToolCall` has both empty. -/
theorem tool_call_outcome_exclusive (env : Env) (reg : Registry) (j : JsonV) :
    (((executeToolCall env reg j).result = none ∧ (executeToolCall env reg j).error ≠ none) ∨
      ((executeToolCall env reg j).result ≠ none ∧ (executeToolCall env reg j).error = none)) ∧
    ∀ t a : JsonV,
      ({ tool := t, arguments := a } : ToolCall).result = none ∧
      ({ tool := t, arguments := a } : ToolCall).error = none := by
  refine ⟨?_, fun t a => ⟨rfl, rfl⟩⟩
  cases hn : objGet j "tool" with
  | str s =>
    by_cases hc : dictContains reg s
    · have hne := executeTool_two_ne_ok_none (env.attempts s (objGet j "arguments")) 1
      cases hr : (executeTool true (env.attempts s (objGet j "arguments")) 2 1).1 with
      | ok v =>
        cases v with
        | none => exact absurd hr hne
        | some w => right; simp [executeToolCall, hn, hc, hr]
      | error e => left; simp [executeToolCall, hn, hc, hr]
    · left; simp [executeToolCall, hn, hc]
  | null => left; simp [executeToolCall, hn]
  | bool b => left; simp [executeToolCall, hn]
  | num r => left; simp [executeToolCall, hn]
  | arr xs => left; simp [executeToolCall, hn]
  | obj kvs => left; simp [executeToolCall, hn]

/-! ## Claims about the `send_message` loop (C6, C3) -/

/-- A completion with no extractable tool calls ends the loop at once,
returning it unchanged. -/
theorem sendLoop_no_tools (env : Env) (reg : Registry) (n : Nat)
    (msgs : List Message) (resp : String) (k r : Nat)
    (hex : extractToolCalls resp = []) :
    sendLoop env reg (n + 1) msgs resp k r = ⟨resp, msgs, r, k, false⟩ := by
  simp [sendLoop, hex]

/-- C6: when the first completion of the turn contains zero parseable
tool objects, extraction returns the empty sequence and `send_message`
returns that completion text unchanged: no tool round runs, no further
model call is made, and the turn ends normally. -/
theorem send_message_no_tools (env : Env) (st : ChatState) (u : String)
    (hinit : st.isInitialized = true)
    (hex : extractToolCalls (env.llm 0) = []) :
    sendMessage env st u 5 =
      ⟨env.llm 0, st.messages ++ [⟨"user", u⟩, ⟨"assistant", env.llm 0⟩], 0, 1, false⟩ := by
  simp only [sendMessage, hinit, if_true, sendMessageReady]
  exact sendLoop_no_tools env st.toolClientMap 4 _ _ 1 0 hex

/-- Witness for C6 at a concrete initialized session and a prose-only
completion. -/
theorem send_message_no_tools_witness :
    sendMessage ⟨fun _ => "你好！", fun _ _ _ => .error "x"⟩
        ⟨[], [⟨"system", "sys"⟩], true, []⟩ "hi" 5 =
      ⟨"你好！", [⟨"system", "sys"⟩, ⟨"user", "hi"⟩, ⟨"assistant", "你好！"⟩], 0, 1, false⟩ :=
  send_message_no_tools ⟨fun _ => "你好！", fun _ _ _ => .error "x"⟩
    ⟨[], [⟨"system", "sys"⟩], true, []⟩ "hi" rfl (by rfl)

/-- The loop executes at most as many tool rounds as it has iterations
left. -/
theorem sendLoop_rounds_le (env : Env) (reg : Registry) :
    ∀ (n : Nat) (msgs : List Message) (resp : String) (k r : Nat),
      (sendLoop env reg n msgs resp k r).rounds ≤ r + n := by
  intro n
  induction n with
  | zero => intro msgs resp k r; simp [sendLoop]
  | succ n ih =>
    intro msgs resp k r
    by_cases hex : (extractToolCalls resp).isEmpty
    · simp [sendLoop, hex]
    · by_cases hex2 : (extractToolCalls (env.llm k)).isEmpty
      · simp [sendLoop, hex, hex2]
      · simp only [sendLoop, hex, if_false, Bool.false_eq_true, hex2]
        calc (sendLoop env reg n _ (env.llm k) (k + 1) (r + 1)).rounds
            ≤ (r + 1) + n := ih _ _ _ _
          _ = r + (n + 1) := by omega

/-- When every completion contains an extractable tool call, the loop
runs all its iterations: the text returned is the completion produced by
the last round, one round and one model call per iteration, and the
bound warning fires. -/
theorem sendLoop_all_tools (env : Env) (reg : Registry)
    (htools : ∀ k, extractToolCalls (env.llm k) ≠ []) :
    ∀ (n : Nat) (msgs : List Message) (resp : String) (k r : Nat),
      extractToolCalls resp ≠ [] →
      (sendLoop env reg (n + 1) msgs resp k r).text = env.llm (k + n) ∧
      (sendLoop env reg (n + 1) msgs resp k r).rounds = r + (n + 1) ∧
      (sendLoop env reg (n + 1) msgs resp k r).llmCalls = k + (n + 1) ∧
      (sendLoop env reg (n + 1) msgs resp k r).boundHit = true := by
  intro n
  induction n with
  | zero =>
    intro msgs resp k r hresp
    have hex : (extractToolCalls resp).isEmpty = false := by
      simpa [List.isEmpty_iff] using hresp
    have hex2 : (extractToolCalls (env.llm k)).isEmpty = false := by
      simpa [List.isEmpty_iff] using htools k
    simp [sendLoop, hex, hex2]
  | succ n ih =>
    intro msgs resp k r hresp
    have hex : (extractToolCalls resp).isEmpty = false := by
      simpa [List.isEmpty_iff] using hresp
    have hex2 : (extractToolCalls (env.llm k)).isEmpty = false := by
      simpa [List.isEmpty_iff] using htools k
    have step :
        sendLoop env reg (n + 1 + 1) msgs resp k r =
          sendLoop env reg (n + 1)
            (msgs ++ [roundMessage ((extractToolCalls resp).map (executeToolCall env reg))] ++
              [⟨"assistant", env.llm k⟩])
            (env.llm k) (k + 1) (r + 1) := by
      simp [sendLoop, hex, hex2]
    rw [step]
    obtain ⟨h1, h2, h3, h4⟩ := ih _ (env.llm k) (k + 1) (r + 1) (htools k)
    refine ⟨?_, ?_, ?_, h4⟩
    · rw [h1]; congr 1; omega
    · omega
    · omega

/-- C3: `send_message` executes at most `max_iterations` tool rounds;
and when every completion keeps producing tool calls with
`max_iterations = 5`, exactly five rounds run, the completion produced
by the fifth round (the sixth model completion of the turn, `llm 5`) is
returned verbatim, the bound warning fires, and no sixth round is
attempted. -/
theorem send_message_iteration_bound :
    (∀ (env : Env) (st : ChatState) (u : String) (n : Nat),
      (sendMessage env st u n).rounds ≤ n) ∧
    (∀ (env : Env) (st : ChatState) (u : String),
      st.isInitialized = true →
      (∀ k, extractToolCalls (env.llm k) ≠ []) →
      (sendMessage env st u 5).text = env.llm 5 ∧
      (sendMessage env st u 5).rounds = 5 ∧
      (sendMessage env st u 5).llmCalls = 6 ∧
      (sendMessage env st u 5).boundHit = true) := by
  constructor
  · intro env st u n
    unfold sendMessage
    by_cases hinit : st.isInitialized
    · simpa [hinit, sendMessageReady] using
        sendLoop_rounds_le env st.toolClientMap n _ (env.llm 0) 1 0
    · simp only [hinit, if_false, Bool.false_eq_true]
      by_cases hok : (initializeModel st).ok
      · simpa [hok, sendMessageReady] using
          sendLoop_rounds_le env (initializeModel st).state.toolClientMap n _ (env.llm 0) 1 0
      · simp [hok]
  · intro env st u hinit htools
    have h := sendLoop_all_tools env st.toolClientMap htools 4
      (st.messages ++ [⟨"user", u⟩, ⟨"assistant", env.llm 0⟩]) (env.llm 0) 1 0 (htools 0)
    simpa [sendMessage, hinit, sendMessageReady] using h

/-- Witness for C3 at a concrete environment whose every completion is
the same tool-call JSON. -/
theorem send_message_iteration_bound_witness :
    (sendMessage ⟨fun _ => "\x7b\"tool\": \"t\", \"arguments\": \x7b\x7d\x7d",
        fun _ _ _ => .error "fail"⟩ ⟨[], [⟨"system", "sys"⟩], true, []⟩ "hi" 5).rounds = 5 ∧
    (sendMessage ⟨fun _ => "\x7b\"tool\": \"t\", \"arguments\": \x7b\x7d\x7d",
        fun _ _ _ => .error "fail"⟩ ⟨[], [⟨"system", "sys"⟩], true, []⟩ "hi" 5).boundHit = true := by
  have h := send_message_iteration_bound.2
    ⟨fun _ => "\x7b\"tool\": \"t\", \"arguments\": \x7b\x7d\x7d", fun _ _ _ => .error "fail"⟩
    ⟨[], [⟨"system", "sys"⟩], true, []⟩ "hi" rfl (fun k => List.cons_ne_nil _ _)
  exact ⟨h.2.1, h.2.2.2⟩

/-! ## Claim about unknown tools (C7) -/

/-- A request naming a tool absent from the registry produces a
"tool not found" outcome; the right-hand side mentions no part of the
environment, so no session is contacted. -/
theorem executeToolCall_not_found (env : Env) (reg : Registry) (j : JsonV) (s : String)
    (hn : objGet j "tool" = .str s) (hc : dictContains reg s = false) :
    executeToolCall env reg j =
      { tool := .str s, arguments := objGet j "arguments",
        error := some ("未找到工具: " ++ s) } := by
  simp [executeToolCall, hn, hc]

/-- C7: a round whose only extracted request names a tool missing from
the registry synthesizes a "tool not found" outcome without consulting
any session (the outcome is the same under every environment), folds it
into the history as the system message of the round, and the turn continues:
the next model completion is still obtained and, containing no tool
calls, is returned normally. -/
theorem tool_not_found_round (env : Env) (st : ChatState) (u : String)
    (j : JsonV) (s : String)
    (hinit : st.isInitialized = true)
    (h0 : extractToolCalls (env.llm 0) = [j])
    (hn : objGet j "tool" = .str s)
    (hc : dictContains st.toolClientMap s = false)
    (h1 : extractToolCalls (env.llm 1) = []) :
    (∀ env2 : Env, executeToolCall env2 st.toolClientMap j =
      { tool := .str s, arguments := objGet j "arguments",
        error := some ("未找到工具: " ++ s) }) ∧
    sendMessage env st u 5 =
      ⟨env.llm 1,
        st.messages ++
          [⟨"user", u⟩, ⟨"assistant", env.llm 0⟩,
            roundMessage [⟨.str s, objGet j "arguments", none,
              some ("未找到工具: " ++ s)⟩],
            ⟨"assistant", env.llm 1⟩],
        1, 2, false⟩ := by
  refine ⟨fun env2 => executeToolCall_not_found env2 st.toolClientMap j s hn hc, ?_⟩
  have hex0 : (extractToolCalls (env.llm 0)).isEmpty = false := by
    simp [h0]
  have hex1 : (extractToolCalls (env.llm 1)).isEmpty = true := by
    simp [h1]
  simp only [sendMessage, hinit, if_true, sendMessageReady]
  show sendLoop env st.toolClientMap (4 + 1) _ (env.llm 0) 1 0 = _
  simp only [sendLoop, hex0, Bool.false_eq_true, if_false, hex1, if_true, h0,
    List.map_cons, List.map_nil]
  rw [executeToolCall_not_found env st.toolClientMap j s hn hc]
  simp [List.append_assoc]

/-- Witness for C7: a model reply calling the unregistered tool `nope`,
then a prose reply. -/
theorem tool_not_found_round_witness :
    sendMessage
        ⟨fun k => if k = 0 then "\x7b\"tool\": \"nope\", \"arguments\": \x7b\x7d\x7d" else "好的",
          fun _ _ _ => .error "x"⟩
        ⟨[], [⟨"system", "sys"⟩], true, [("t", "c")]⟩ "hi" 5 =
      ⟨"好的",
        [⟨"system", "sys"⟩, ⟨"user", "hi"⟩,
          ⟨"assistant", "\x7b\"tool\": \"nope\", \"arguments\": \x7b\x7d\x7d"⟩,
          roundMessage [⟨.str "nope", .obj [], none,
            some ("未找到工具: " ++ "nope")⟩],
          ⟨"assistant", "好的"⟩],
        1, 2, false⟩ := by
  have h := tool_not_found_round
    ⟨fun k => if k = 0 then "\x7b\"tool\": \"nope\", \"arguments\": \x7b\x7d\x7d" else "好的",
      fun _ _ _ => .error "x"⟩
    ⟨[], [⟨"system", "sys"⟩], true, [("t", "c")]⟩ "hi"
    (.obj [("tool", .str "nope"), ("arguments", .obj [])]) "nope"
    rfl (by rfl) (by rfl) (by rfl) (by rfl)
  exact h.2

/-! ## Claims about initialization (C1, C8) -/

/-- Replacing the value at a key that is absent changes nothing. -/
theorem map_replace_id (k v : String) :
    ∀ m : Registry, dictContains m k = false →
    (m.map fun p => if p.1 = k then (k, v) else p) = m := by
  intro m
  induction m with
  | nil => intro _; rfl
  | cons p m ih =>
    intro h
    simp only [dictContains, List.any_cons, Bool.or_eq_false_iff] at h
    obtain ⟨hp, hm⟩ := h
    have hp' : ¬ p.1 = k := by simpa using hp
    simp only [List.map_cons, if_neg hp']
    rw [ih hm]

/-- Lookup after the in-place-update branch of a Python-dict insert. -/
theorem dictLookup_replace (k v q : String) :
    ∀ m : Registry, dictContains m k = true →
    dictLookup (m.map fun p => if p.1 = k then (k, v) else p) q =
      if q = k then some v else dictLookup m q := by
  intro m
  induction m with
  | nil => intro h; simp [dictContains] at h
  | cons p m ih =>
    intro h
    by_cases hp : p.1 = k
    · by_cases hq : q = k
      · subst hq
        simp [dictLookup, List.find?, hp]
      · have hkq : ¬ (k = q) := fun h2 => hq h2.symm
        have hpq : ¬ (p.1 = q) := by rw [hp]; exact hkq
        simp only [List.map_cons, if_pos hp, dictLookup, List.find?, decide_eq_true_eq]
        simp only [decide_eq_false hkq, decide_eq_false hpq]
        by_cases hm : dictContains m k
        · have := ih hm
          simpa [dictLookup, if_neg hq] using this
        · rw [map_replace_id k v m (by simpa using hm), if_neg hq]
    · have hcm : dictContains m k = true := by
        simp only [dictContains, List.any_cons, Bool.or_eq_true_iff] at h
        rcases h with h | h
        · exact absurd (by simpa using h) hp
        · exact h
      by_cases hpq : p.1 = q
      · have hq : ¬ (q = k) := fun h2 => hp (hpq.trans h2)
        simp [dictLookup, List.find?, if_neg hp, hpq, hq]
      · simp only [List.map_cons, if_neg hp, dictLookup, List.find?,
          decide_eq_false hpq]
        have := ih hcm
        simpa [dictLookup] using this

/-- Lookup after the append branch of a Python-dict insert. -/
theorem dictLookup_append_new (k v q : String) :
    ∀ m : Registry, dictContains m k = false →
    dictLookup (m ++ [(k, v)]) q = if q = k then some v else dictLookup m q := by
  intro m
  induction m with
  | nil =>
    intro _
    by_cases hq : q = k
    · subst hq; simp [dictLookup, List.find?]
    · have hkq : ¬ (k = q) := fun h2 => hq h2.symm
      simp [dictLookup, List.find?, hkq, hq]
  | cons p m ih =>
    intro h
    simp only [dictContains, List.any_cons, Bool.or_eq_false_iff] at h
    obtain ⟨hp, hm⟩ := h
    have hp' : ¬ p.1 = k := by simpa using hp
    by_cases hpq : p.1 = q
    · have hq : ¬ (q = k) := fun h2 => hp' (hpq.trans h2)
      simp [dictLookup, List.find?, hpq, hq]
    · simp only [List.cons_append, dictLookup, List.find?, decide_eq_false hpq]
      have := ih hm
      simpa [dictLookup] using this

/-- Looking up `q` after a Python-dict insert of `k`. -/
theorem dictLookup_insert (m : Registry) (k v q : String) :
    dictLookup (dictInsert m k v) q = if q = k then some v else dictLookup m q := by
  by_cases hc : dictContains m k
  · simp only [dictInsert, hc, if_true]
    exact dictLookup_replace k v q m hc
  · simp only [dictInsert, hc, Bool.false_eq_true, if_false]
    exact dictLookup_append_new k v q m (by simpa using hc)

/-- Lookup after registering the tools of one client: that client name if
any of its tools has the looked-up name, otherwise the answer of the
previous map. -/
theorem registerClient_lookup (t : String) :
    ∀ (ts : List ToolSpec) (m : Registry) (ws : List String) (cname : String),
    dictLookup (registerClient m ws ts cname).1 t =
      if ts.any (fun tool => tool.name = t) then some cname else dictLookup m t := by
  intro ts
  induction ts with
  | nil => intro m ws cname; simp [registerClient]
  | cons tool ts ih =>
    intro m ws cname
    simp only [registerClient]
    rw [ih]
    by_cases h : ts.any (fun tool2 => tool2.name = t)
    · simp [h]
    · simp only [h, Bool.false_eq_true, if_false, dictLookup_insert, List.any_cons]
      by_cases h2 : tool.name = t
      · simp [h2]
      · have h2' : ¬ (t = tool.name) := fun hh => h2 hh.symm
        simp [h2, h2', h]

/-- When every client initializes, the registration loop succeeds and
the final lookup for each tool name is its last registrant. -/
theorem buildRegistry_ok :
    ∀ (cs : List ClientSpec) (m : Registry) (ws : List String),
    (∀ c ∈ cs, c.initOk = true) →
    (buildRegistry cs m ws).1 = true ∧
    ∀ t, dictLookup (buildRegistry cs m ws).2.1 t =
      match lastRegistrant cs t with
      | some n => some n
      | none => dictLookup m t := by
  intro cs
  induction cs with
  | nil => intro m ws _; exact ⟨rfl, fun t => rfl⟩
  | cons c cs ih =>
    intro m ws hall
    have hc : c.initOk = true := hall c (by simp)
    simp only [buildRegistry, hc, if_true]
    obtain ⟨hok, hlk⟩ := ih (registerClient m ws c.tools c.name).1
      (registerClient m ws c.tools c.name).2 (fun c2 h2 => hall c2 (by simp [h2]))
    refine ⟨hok, fun t => ?_⟩
    rw [hlk t]
    cases hl : lastRegistrant cs t with
    | some n => simp [lastRegistrant, hl]
    | none =>
      simp only [lastRegistrant, hl, registerClient_lookup]
      by_cases h2 : c.tools.any (fun tool => tool.name = t)
      · simp [h2]
      · simp [h2]

/-- A failing client in the list makes the registration loop report
failure. -/
theorem buildRegistry_fails :
    ∀ (cs : List ClientSpec) (m : Registry) (ws : List String) (c : ClientSpec),
    c ∈ cs → c.initOk = false → (buildRegistry cs m ws).1 = false := by
  intro cs
  induction cs with
  | nil => intro m ws c h; cases h
  | cons c0 cs ih =>
    intro m ws c hmem hbad
    by_cases h0 : c0.initOk
    · simp only [buildRegistry, h0, if_true]
      rcases List.mem_cons.mp hmem with rfl | hmem2
      · rw [h0] at hbad; cases hbad
      · exact ih _ _ c hmem2 hbad
    · simp [buildRegistry, h0]

/-- Counterexample to C1 as stated: two healthy servers both exposing a
tool named `t`; after initialization the registry maps `t` to the
session of the **second** server, not the first, while the collision is
logged and initialization still succeeds. -/
theorem registry_first_wins_refuted :
    (initializeModel ⟨[⟨"c1", true, [⟨"t", "d1", "s1"⟩]⟩,
        ⟨"c2", true, [⟨"t", "d2", "s2"⟩]⟩], [], false, []⟩).ok = true ∧
    dictLookup (initializeModel ⟨[⟨"c1", true, [⟨"t", "d1", "s1"⟩]⟩,
        ⟨"c2", true, [⟨"t", "d2", "s2"⟩]⟩], [], false, []⟩).state.toolClientMap "t" =
      some "c2" ∧
    ¬ dictLookup (initializeModel ⟨[⟨"c1", true, [⟨"t", "d1", "s1"⟩]⟩,
        ⟨"c2", true, [⟨"t", "d2", "s2"⟩]⟩], [], false, []⟩).state.toolClientMap "t" =
      some "c1" ∧
    (initializeModel ⟨[⟨"c1", true, [⟨"t", "d1", "s1"⟩]⟩,
        ⟨"c2", true, [⟨"t", "d2", "s2"⟩]⟩], [], false, []⟩).collisions = ["t"] := by
  refine ⟨rfl, rfl, by decide, rfl⟩

/-- C1 (amended): on a successful initialization the registry maps each
tool name to the session of the **last** server that registered it;
collisions only add a logged warning and initialization still
succeeds. -/
theorem registry_last_wins (st : ChatState)
    (hinit : st.isInitialized = false)
    (hall : ∀ c ∈ st.clients, c.initOk = true) :
    (initializeModel st).ok = true ∧
    ∀ t, dictLookup (initializeModel st).state.toolClientMap t =
      lastRegistrant st.clients t := by
  obtain ⟨hok, hlk⟩ := buildRegistry_ok st.clients [] [] hall
  simp only [initializeModel, hinit, Bool.false_eq_true, if_false, hok, if_true]
  refine ⟨trivial, fun t => ?_⟩
  rw [hlk t]
  cases lastRegistrant st.clients t <;> rfl

/-- Witness for the amended C1 at the two-server collision input. -/
theorem registry_last_wins_witness :
    (initializeModel ⟨[⟨"c1", true, [⟨"t", "d1", "s1"⟩]⟩,
        ⟨"c2", true, [⟨"t", "d2", "s2"⟩]⟩], [], false, []⟩).ok = true ∧
    dictLookup (initializeModel ⟨[⟨"c1", true, [⟨"t", "d1", "s1"⟩]⟩,
        ⟨"c2", true, [⟨"t", "d2", "s2"⟩]⟩], [], false, []⟩).state.toolClientMap "t" =
      lastRegistrant [⟨"c1", true, [⟨"t", "d1", "s1"⟩]⟩,
        ⟨"c2", true, [⟨"t", "d2", "s2"⟩]⟩] "t" := by
  have h := registry_last_wins
    ⟨[⟨"c1", true, [⟨"t", "d1", "s1"⟩]⟩, ⟨"c2", true, [⟨"t", "d2", "s2"⟩]⟩], [], false, []⟩
    rfl (by intro c hc; fin_cases hc <;> rfl)
  exact ⟨h.1, h.2 "t"⟩

/-- C8: if any configured client fails to initialize, `initialize`
reports failure and `cleanup_clients` is invoked, tearing down every
configured client, not just the failed one; the session never proceeds
partially initialized. -/
theorem initialize_fail_fast (st : ChatState) (c : ClientSpec)
    (hinit : st.isInitialized = false)
    (hmem : c ∈ st.clients) (hbad : c.initOk = false) :
    (initializeModel st).ok = false ∧
    (initializeModel st).state.isInitialized = false ∧
    (initializeModel st).cleaned = st.clients.map (fun c2 => c2.name) := by
  have h := buildRegistry_fails st.clients [] [] c hmem hbad
  simp [initializeModel, hinit, h]

/-- Witness for C8: the second of three clients fails; all three are
cleaned up. -/
theorem initialize_fail_fast_witness :
    (initializeModel ⟨[⟨"c1", true, []⟩, ⟨"c2", false, []⟩, ⟨"c3", true, []⟩],
        [], false, []⟩).ok = false ∧
    (initializeModel ⟨[⟨"c1", true, []⟩, ⟨"c2", false, []⟩, ⟨"c3", true, []⟩],
        [], false, []⟩).state.isInitialized = false ∧
    (initializeModel ⟨[⟨"c1", true, []⟩, ⟨"c2", false, []⟩, ⟨"c3", true, []⟩],
        [], false, []⟩).cleaned = ["c1", "c2", "c3"] := by
  have h := initialize_fail_fast
    ⟨[⟨"c1", true, []⟩, ⟨"c2", false, []⟩, ⟨"c3", true, []⟩], [], false, []⟩
    ⟨"c2", false, []⟩ rfl (by simp) rfl
  exact ⟨h.1, h.2.1, by rw [h.2.2]; rfl⟩

/-! ## Claim about tool-call extraction (C5) -/

/-- A maximal non-brace run consumes exactly the non-brace block in
front of a brace boundary. -/
theorem spanNB_exact (A tail : List Char) (hA : nbrace A = true)
    (ht : headBrace tail = true) :
    spanNB (A ++ tail) = (A, tail) := by
  induction A with
  | nil =>
    simp only [List.nil_append]
    cases tail with
    | nil => rfl
    | cons d r =>
      simp only [headBrace] at ht
      simp [spanNB, ht]
  | cons a A ih =>
    simp only [nbrace, List.all_cons, Bool.and_eq_true] at hA
    obtain ⟨ha, hA2⟩ := hA
    have ha2 : isBrace a = false := by simpa using ha
    simp only [List.cons_append, spanNB, ha2, Bool.false_eq_true, if_false]
    simp only [List.append_eq]
    rw [ih hA2]

/-- The group run stops immediately when the input does not start with
an opening brace. -/
theorem groupRun_not_lb : ∀ (fuel : Nat) (cs : List Char),
    headNotLb cs = true → groupRun fuel cs = ([], cs) := by
  intro fuel cs ht
  cases fuel with
  | zero => rfl
  | succ f =>
    cases cs with
    | nil => rfl
    | cons d r =>
      simp only [headNotLb, bne_iff_ne, ne_eq, decide_not] at ht
      have hd : ¬ d = lbrace := by simpa using ht
      simp [groupRun, hd]

/-- A non-brace run followed by a closing brace never starts with an
opening brace. -/
theorem headNotLb_nbrace_append (B post : List Char) (hB : nbrace B = true) :
    headNotLb (B ++ rbrace :: post) = true := by
  cases B with
  | nil => simp [headNotLb, rbrace, lbrace, Char.ofNat]
  | cons b B2 =>
    simp only [nbrace, List.all_cons, Bool.and_eq_true] at hB
    have hb : isBrace b = false := by simpa using hB.1
    simp only [isBrace, Bool.or_eq_false_iff] at hb
    simp only [List.cons_append, headNotLb, bne_iff_ne, ne_eq, decide_eq_true_eq]
    simpa using hb.1

/-- With enough fuel the group run consumes exactly a sequence of
complete groups and stops at a non-`\x7b` boundary. -/
theorem groupRun_exact :
    ∀ (gs : List (List Char)) (tail : List Char) (fuel : Nat),
    IsGroupList gs → gs.flatten.length ≤ fuel → headNotLb tail = true →
    groupRun fuel (gs.flatten ++ tail) = (gs.flatten, tail) := by
  intro gs
  induction gs with
  | nil =>
    intro tail fuel _ _ ht
    simpa using groupRun_not_lb fuel tail ht
  | cons g gs ih =>
    intro tail fuel hgl hlen ht
    obtain ⟨inner, hin, hg⟩ := hgl g (by simp)
    subst hg
    have hgs : IsGroupList gs := fun g2 h2 => hgl g2 (by simp [h2])
    simp only [List.flatten_cons, List.length_append, List.length_cons,
      List.length_nil] at hlen
    cases fuel with
    | zero => omega
    | succ f =>
      have hflat : gs.flatten.length ≤ f := by omega
      simp only [List.flatten_cons]
      rw [show ((lbrace :: (inner ++ [rbrace])) ++ gs.flatten) ++ tail =
        lbrace :: (inner ++ (rbrace :: (gs.flatten ++ tail))) from by simp]
      simp only [groupRun]
      rw [spanNB_exact inner (rbrace :: (gs.flatten ++ tail)) hin
        (by simp [headBrace, isBrace])]
      simp only [if_pos rfl]
      rw [ih tail f hgs hflat ht]
      simp

/-- The full pattern matches exactly the object
`\x7b A groups B \x7d` at the head of the input, leaving the rest. -/
theorem matchObject_exact (A B : List Char) (gs : List (List Char)) (post : List Char)
    (hA : nbrace A = true) (hB : nbrace B = true) (hgs : IsGroupList gs) :
    matchObject ((lbrace :: (A ++ gs.flatten ++ B ++ [rbrace])) ++ post) =
      some (lbrace :: (A ++ gs.flatten ++ B ++ [rbrace]), post) := by
  cases hgsE : gs with
  | nil =>
    subst hgsE
    have harr : ((lbrace :: (A ++ List.flatten [] ++ B ++ [rbrace])) ++ post) =
        lbrace :: ((A ++ B) ++ (rbrace :: post)) := by
      simp
    rw [harr]
    simp only [matchObject, if_pos rfl]
    rw [spanNB_exact (A ++ B) (rbrace :: post)
      (by simp only [nbrace, List.all_append, Bool.and_eq_true]; exact ⟨hA, hB⟩)
      (by simp [headBrace, isBrace])]
    rw [groupRun_not_lb _ (rbrace :: post)
      (by simp [headNotLb, rbrace, lbrace, Char.ofNat])]
    simp [spanNB, isBrace]
  | cons g0 gs2 =>
    subst hgsE
    obtain ⟨inner, hin, hg⟩ := hgs g0 (by simp)
    have harr : ((lbrace :: (A ++ (g0 :: gs2).flatten ++ B ++ [rbrace])) ++ post) =
        lbrace :: (A ++ ((g0 :: gs2).flatten ++ (B ++ (rbrace :: post)))) := by
      simp
    rw [harr]
    simp only [matchObject, if_pos rfl]
    have hhead : headBrace ((g0 :: gs2).flatten ++ (B ++ (rbrace :: post))) = true := by
      subst hg
      simp [headBrace, isBrace]
    rw [spanNB_exact A ((g0 :: gs2).flatten ++ (B ++ (rbrace :: post))) hA hhead]
    have hfuel : (g0 :: gs2).flatten.length ≤
        (A ++ ((g0 :: gs2).flatten ++ (B ++ (rbrace :: post)))).length := by
      simp
      omega
    rw [groupRun_exact (g0 :: gs2) (B ++ (rbrace :: post)) _ hgs hfuel
      (headNotLb_nbrace_append B post hB)]
    rw [spanNB_exact B (rbrace :: post) hB (by simp [headBrace, isBrace])]
    simp

/-- The scan finds nothing in text without an opening brace. -/
theorem finditerAux_no_lb :
    ∀ (cs : List Char) (fuel : Nat), (∀ c ∈ cs, c ≠ lbrace) →
    finditerAux fuel cs = [] := by
  intro cs
  induction cs with
  | nil => intro fuel _; cases fuel <;> rfl
  | cons c cs ih =>
    intro fuel h
    cases fuel with
    | zero => rfl
    | succ f =>
      have hc : ¬ c = lbrace := h c (by simp)
      simp only [finditerAux, matchObject, hc, Bool.false_eq_true, if_false]
      exact ih f (fun d hd => h d (by simp [hd]))

/-- Scanning past a prefix without opening braces just scans the
suffix. -/
theorem finditerAux_skip :
    ∀ (pre cs : List Char) (fuel : Nat), (∀ c ∈ pre, c ≠ lbrace) →
    finditerAux (pre.length + fuel) (pre ++ cs) = finditerAux fuel cs := by
  intro pre
  induction pre with
  | nil => intro cs fuel _; simp
  | cons p pre ih =>
    intro cs fuel h
    have hp : ¬ p = lbrace := h p (by simp)
    simp only [List.cons_append, List.length_cons]
    rw [show pre.length + 1 + fuel = (pre.length + fuel) + 1 from by omega]
    simp only [finditerAux, matchObject, hp, Bool.false_eq_true, if_false]
    exact ih cs fuel (fun d hd => h d (by simp [hd]))

/-- The scan over brace-free prose surrounding exactly one
pattern-shaped object returns exactly that object. -/
theorem finditer_single (pre post A B : List Char) (gs : List (List Char))
    (hpre : ∀ c ∈ pre, c ≠ lbrace) (hpost : ∀ c ∈ post, c ≠ lbrace)
    (hA : nbrace A = true) (hB : nbrace B = true) (hgs : IsGroupList gs) :
    finditer (pre ++ (lbrace :: (A ++ gs.flatten ++ B ++ [rbrace])) ++ post) =
      [lbrace :: (A ++ gs.flatten ++ B ++ [rbrace])] := by
  unfold finditer
  rw [show pre ++ (lbrace :: (A ++ gs.flatten ++ B ++ [rbrace])) ++ post =
    pre ++ ((lbrace :: (A ++ gs.flatten ++ B ++ [rbrace])) ++ post) from by simp]
  rw [show (pre ++ ((lbrace :: (A ++ gs.flatten ++ B ++ [rbrace])) ++ post)).length =
    pre.length + ((lbrace :: (A ++ gs.flatten ++ B ++ [rbrace])) ++ post).length
    from by simp]
  rw [finditerAux_skip pre _ _ hpre]
  rw [show ((lbrace :: (A ++ gs.flatten ++ B ++ [rbrace])) ++ post).length =
    ((A ++ gs.flatten ++ B ++ [rbrace]) ++ post).length + 1 from by simp]
  rw [show (lbrace :: (A ++ gs.flatten ++ B ++ [rbrace])) ++ post =
    lbrace :: ((A ++ gs.flatten ++ B ++ [rbrace]) ++ post) from by simp]
  simp only [finditerAux]
  rw [show lbrace :: ((A ++ gs.flatten ++ B ++ [rbrace]) ++ post) =
    (lbrace :: (A ++ gs.flatten ++ B ++ [rbrace])) ++ post from by simp]
  rw [matchObject_exact A B gs post hA hB hgs]
  dsimp only
  rw [finditerAux_no_lb post _ hpost]

/-- C5 (amended): extraction returns exactly one matching request when
the whole output is one well-formed JSON object carrying both keys; an
object embedded in surrounding prose is also found — and is the single
request returned — provided the prose contains no opening braces, the
prose breaks whole-text parsing, and the object instantiates the
one-nesting-level brace pattern; deeper-nested objects inside prose can
be missed. -/
theorem extract_single_object :
    (∀ (s : String) (j : JsonV),
      jsonLoads s = some j → hasToolKeys j = true → extractToolCalls s = [j]) ∧
    (∀ (pre post A B : List Char) (gs : List (List Char)) (j : JsonV),
      (∀ c ∈ pre, c ≠ lbrace) → (∀ c ∈ post, c ≠ lbrace) →
      nbrace A = true → nbrace B = true → IsGroupList gs →
      jsonLoads (String.mk (pre ++ (lbrace :: (A ++ gs.flatten ++ B ++ [rbrace])) ++ post)) = none →
      jsonLoads (String.mk (lbrace :: (A ++ gs.flatten ++ B ++ [rbrace]))) = some j →
      hasToolKeys j = true →
      extractToolCalls
        (String.mk (pre ++ (lbrace :: (A ++ gs.flatten ++ B ++ [rbrace])) ++ post)) = [j]) := by
  constructor
  · intro s j hload hkeys
    simp [extractToolCalls, hload, hkeys]
  · intro pre post A B gs j hpre hpost hA hB hgs hwhole hobj hkeys
    simp only [extractToolCalls, hwhole]
    have hfind := finditer_single pre post A B gs hpre hpost hA hB hgs
    show (finditer (pre ++ (lbrace :: (A ++ gs.flatten ++ B ++ [rbrace])) ++ post)).filterMap _ = [j]
    rw [hfind]
    have hobj2 : jsonLoads (String.mk (lbrace :: (A ++ (gs.flatten ++ (B ++ [rbrace]))))) =
        some j := by simpa [List.append_assoc] using hobj
    simp [hobj2, hkeys]

/-- Witness for the amended C5: both conjuncts applied to the concrete
output `Use \x7b"tool": "t", "arguments": \x7b"a": 1\x7d\x7d now`. -/
theorem extract_single_object_witness :
    extractToolCalls "\x7b\"tool\": \"t\", \"arguments\": \x7b\"a\": 1\x7d\x7d" =
      [.obj [("tool", .str "t"), ("arguments", .obj [("a", .num "1")])]] ∧
    extractToolCalls
        (String.mk (("Use ").data ++
          (lbrace :: ((("\"tool\": \"t\", \"arguments\": ").data ++
            [("\x7b\"a\": 1\x7d").data].flatten ++ ([] : List Char) ++ [rbrace]))) ++
          (" now").data)) =
      [.obj [("tool", .str "t"), ("arguments", .obj [("a", .num "1")])]] := by
  constructor
  · exact extract_single_object.1 _ _ rfl rfl
  · exact extract_single_object.2 ("Use ").data (" now").data
      (("\"tool\": \"t\", \"arguments\": ").data) [] [("\x7b\"a\": 1\x7d").data]
      (.obj [("tool", .str "t"), ("arguments", .obj [("a", .num "1")])])
      (by decide) (by decide) (by decide) (by decide)
      (by
        intro g hg
        rw [List.mem_singleton] at hg
        subst hg
        exact ⟨("\"a\": 1").data, by decide, by decide⟩)
      rfl rfl rfl

/-- Counterexample to C5 as stated: the prose-wrapped output
`See \x7b"tool": "t", "arguments": \x7b"a": \x7b"b": 1\x7d\x7d\x7d ok`
contains a single well-formed `\x7btool, arguments\x7d` JSON object
(it parses on its own and carries both keys), yet extraction returns
the empty sequence because the balanced-brace scan only matches one
nesting level. -/
theorem extract_single_object_refuted :
    jsonLoads "\x7b\"tool\": \"t\", \"arguments\": \x7b\"a\": \x7b\"b\": 1\x7d\x7d\x7d" =
      some (.obj [("tool", .str "t"),
        ("arguments", .obj [("a", .obj [("b", .num "1")])])]) ∧
    hasToolKeys (.obj [("tool", .str "t"),
      ("arguments", .obj [("a", .obj [("b", .num "1")])])]) = true ∧
    extractToolCalls
        "See \x7b\"tool\": \"t\", \"arguments\": \x7b\"a\": \x7b\"b\": 1\x7d\x7d\x7d ok" =
      [] :=
  ⟨rfl, rfl, rfl⟩

end McpMd
